import Mathlib

/-!
Verification of the core decision logic of the fantasy-football starter
optimizer (`src/streamlit_app.py`): the lineup optimizer `build_optimizer`,
the weekly-projection resolver `get_proj_week` with its helpers
`safe_proj`, `_pos_key` and `_match_fp_row`, and the trade verdict score
`trade_summary_verdict`.

Conventions of the shallow embedding:
* Python numbers (projection points) are modelled as rationals `ℚ`; the
  program only sorts, adds, divides by constants and compares them.
* Python objects of the league-client player class are modelled as records.
  Distinct objects are distinct values: the `pid` field stands for object
  identity, since the program stores players in a Python `set` and compares
  them by object identity.
* A Python function that can raise an exception is embedded with result
  type `Except String _`; a function that cannot raise is embedded as a
  total function.
-/

/-- A roster player as seen by `build_optimizer`: the code reads only
`p.position` (via `getattr(p, "position", "")`) and passes the player to
the projection function used as sort key.  `pid` models Python object
identity (two distinct player objects never compare equal). -/
structure Player where
  pid : Nat
  name : String
  position : String
deriving DecidableEq, Repr

/-- One step of the stable descending insertion sort: `x` is placed before
the first element whose projection is less than or equal to `proj x`.
This is the behaviour of Python `list.sort(key=proj, reverse=True)`
(a stable sort in non-increasing key order, ties keeping list order)
restated as an insertion sort. -/
def insertDesc (proj : Player → ℚ) (x : Player) : List Player → List Player
  | [] => [x]
  | y :: ys => if proj x < proj y then y :: insertDesc proj x ys else x :: y :: ys

/-- Stable descending sort by projection, modelling
`groups[pos].sort(key=lambda p: get_proj_week(p), reverse=True)`
(line 190 of `streamlit_app.py`). -/
def sortDesc (proj : Player → ℚ) : List Player → List Player
  | [] => []
  | x :: xs => insertDesc proj x (sortDesc proj xs)

/-- The position bucket of line 183-186: players of the roster whose
`position` equals `pos`, in roster order. -/
def posBucket (roster : List Player) (pos : String) : List Player :=
  roster.filter (fun p => p.position == pos)

/-- The six single-position group keys of the `groups` dict
(line 182), without the extra `"FLEX"` key. -/
def singleSlots : List String := ["QB", "RB", "WR", "TE", "D/ST", "K"]

/-- The FLEX bucket before sorting.  Line 182-186 first appends to
`groups["FLEX"]` every roster player whose `position` is literally
`"FLEX"` (because `"FLEX"` is a key of the `groups` dict), and
lines 187-188 then extend it with the RB, WR and TE buckets in that
order. -/
def flexBucket (roster : List Player) : List Player :=
  posBucket roster "FLEX" ++ posBucket roster "RB" ++
    posBucket roster "WR" ++ posBucket roster "TE"

/-- The sorted bucket handed to the fill loop for a slot name:
`groups.get(slot, [])` after line 189-190 sorted every bucket.  Slot
names outside the seven group keys yield the empty list. -/
def groups (proj : Player → ℚ) (roster : List Player) (slot : String) : List Player :=
  if slot = "FLEX" then sortDesc proj (flexBucket roster)
  else if slot ∈ singleSlots then sortDesc proj (posBucket roster slot)
  else []

/-- The inner fill loop of lines 194-197 for one slot: walk the bucket,
assign a player if it is not yet used and the slot still has room, and
thread the `used` set (modelled as a list).  Returns the players chosen
for the slot and the grown `used`. -/
def fillSlot (used : List Player) : Nat → List Player → List Player × List Player
  | _, [] => ([], used)
  | 0, _ => ([], used)
  | c + 1, p :: ps =>
    if p ∈ used then fillSlot used (c + 1) ps
    else
      let r := fillSlot (p :: used) c ps
      (p :: r.1, r.2)

/-- The outer loop of line 193: process the requirement map entries in
insertion order, producing one lineup entry per slot and threading
`used`. -/
def fillAll (g : String → List Player) : List Player → List (String × Nat) →
    List (String × List Player) × List Player
  | used, [] => ([], used)
  | used, (s, c) :: rest =>
    let r := fillSlot used c (g s)
    let rr := fillAll g r.2 rest
    ((s, r.1) :: rr.1, rr.2)

/-- The embedding of `build_optimizer(roster, starting_slots)`
(lines 180-199).  The weekly projection used as sort key is passed in as
`proj`; the slot requirement dict is a key-ordered association list.
Returns the lineup (slot name to chosen players, in requirement order)
and the bench `[p for p in roster if p not in used]`. -/
def build_optimizer (proj : Player → ℚ) (roster : List Player)
    (starting_slots : List (String × Nat)) :
    List (String × List Player) × List Player :=
  let r := fillAll (groups proj roster) [] starting_slots
  (r.1, roster.filter (fun p => decide (p ∉ r.2)))

/-- A dynamically typed Python value as it reaches `safe_proj`: `None`, a
number, or a string (the scraped FPTS cells are strings). -/
inductive PyVal where
  | none
  | num (q : ℚ)
  | str (s : String)
deriving DecidableEq, Repr

/-- Python truthiness of a `PyVal`: `None`, numeric zero and the empty
string are falsy. -/
def pyTruthy : PyVal → Bool
  | .none => false
  | .num q => q != 0
  | .str s => s != ""

/-- Digits to a natural number, most significant first. -/
def digitsToNat (cs : List Char) : Nat :=
  cs.foldl (fun n c => n * 10 + (c.toNat - 48)) 0

/-- Parse an unsigned decimal literal: digits with one optional decimal
point, at least one digit overall.  Models the body of Python `float` on
plain decimal strings (exponents and the special words are not produced
by the scraped tables this program feeds to it). -/
def parseUnsigned (cs : List Char) : Option ℚ :=
  let intPart := cs.takeWhile Char.isDigit
  match cs.dropWhile Char.isDigit with
  | [] => if intPart.isEmpty then Option.none else some (digitsToNat intPart : ℚ)
  | '.' :: frac =>
    if frac.all Char.isDigit && !(intPart.isEmpty && frac.isEmpty) then
      some ((digitsToNat intPart : ℚ) + (digitsToNat frac : ℚ) / (10 ^ frac.length))
    else Option.none
  | _ => Option.none

/-- Strip leading and trailing whitespace from a character list, like
Python `str.strip()`. -/
def trimChars (cs : List Char) : List Char :=
  ((cs.dropWhile Char.isWhitespace).reverse.dropWhile Char.isWhitespace).reverse

/-- Parse a Python `float(...)` argument given as a string: surrounding
whitespace is stripped, an optional sign precedes the digits.  `none`
models `float` raising `ValueError`. -/
def parseFloat (s : String) : Option ℚ :=
  match trimChars s.toList with
  | '+' :: cs => parseUnsigned cs
  | '-' :: cs => (parseUnsigned cs).map Neg.neg
  | cs => parseUnsigned cs

/-- Python `float(v)` on a `PyVal`: numbers convert to themselves,
strings are parsed, `float(None)` raises (`none`). -/
def pyFloat : PyVal → Option ℚ
  | .none => Option.none
  | .num q => some q
  | .str s => parseFloat s

/-- The embedding of `safe_proj(val)` (lines 15-19):
`float(val or 0)` under a catch-all `except` returning `0.0`. -/
def safe_proj (v : PyVal) : ℚ :=
  let v1 := if pyTruthy v then v else PyVal.num 0
  (pyFloat v1).getD 0

/-- The three values of the `proj_source` sidebar radio (line 314-319):
`"ESPN only"`, `"FantasyPros fallback"`, `"FantasyPros only"` — the
spec's PrimaryOnly / PrimaryWithFallback / SecondaryOnly. -/
inductive Mode where
  | espnOnly
  | fpFallback
  | fpOnly
deriving DecidableEq, Repr

/-- A player as seen by the projection resolver `get_proj_week`:
`stats` is `none` when the object has no `stats` attribute, otherwise a
map from week number to the value of the `"projected"` key of that
week's stat dict (`none` inside when the key is missing or `None`);
`projected_points` is `none` when the attribute is absent or `None`. -/
structure ProjPlayer where
  name : String
  position : String
  stats : Option (List (Nat × Option ℚ))
  projected_points : Option ℚ
deriving DecidableEq, Repr

/-- Python `str.upper()` restricted to the characters that occur in
position strings. -/
def toUpperStr (s : String) : String :=
  String.mk (s.toList.map Char.toUpper)

/-- The embedding of `_pos_key(player)` (lines 96-104): uppercase the
position and look it up in the six-entry dict; `none` is Python `None`. -/
def pos_key (player : ProjPlayer) : Option String :=
  match toUpperStr player.position with
  | "QB" => some "qb"
  | "RB" => some "rb"
  | "WR" => some "wr"
  | "TE" => some "te"
  | "K" => some "k"
  | "D/ST" => some "dst"
  | _ => Option.none

/-- One row of a scraped FantasyPros projection table: the cleaned
`Player` cell and the raw `FPTS` cell.  A table whose `FPTS` column is
missing is modelled by the default `row.get("FPTS", 0)` would produce,
namely `PyVal.num 0` in every row. -/
structure FPRow where
  player : String
  fpts : PyVal
deriving DecidableEq, Repr

/-- A scraped per-position table (`fp_weekly[key]`): its rows, plus
whether the `"Player"` column exists (a non-empty scrape may lack it). -/
structure FPTable where
  hasPlayerCol : Bool
  rows : List FPRow
deriving DecidableEq, Repr

/-- Python `name.split()`'s first element: split on whitespace runs,
drop empty pieces, take the head.  `none` models the `IndexError` of
`name.split()[0]` on a token-free string. -/
def firstToken (name : String) : Option String :=
  let rest := name.toList.dropWhile Char.isWhitespace
  if rest.isEmpty then Option.none
  else some (String.mk (rest.takeWhile (fun c => !c.isWhitespace)))

/-- The characters with special meaning in a Python regular expression
(outside character classes); every other character matches itself
literally. -/
def regexSpecialChars : String := ".^$*+?()[]\\|\x7b\x7d"

/-- Is `c` a regex-literal character, one with no special meaning? -/
def regexLiteralChar (c : Char) : Bool :=
  !(regexSpecialChars.toList.contains c)

/-- Does the token consist of regex-literal characters only?  Used as a
pattern, such a token matches exactly as a literal substring. -/
def tokenIsRegexLiteral (t : String) : Bool :=
  t.toList.all regexLiteralChar

/-- Does the token consist of regex-literal characters and `.`
wildcards only?  This is the pattern fragment the embedding interprets
itself; see `matchPattern`. -/
def tokenIsDotPattern (t : String) : Bool :=
  t.toList.all (fun c => regexLiteralChar c || c == '.')

/-- Case-insensitive character equality, modelling `re.IGNORECASE`. -/
def ciEq (a b : Char) : Bool := a.toLower == b.toLower

/-- Case-insensitive prefix test of pattern characters, all literal,
against haystack characters. -/
def ciPrefix : List Char → List Char → Bool
  | [], _ => true
  | _ :: _, [] => false
  | p :: ps, h :: hs => ciEq p h && ciPrefix ps hs

/-- Case-insensitive literal substring containment — the behaviour the
spec ascribes to the name match ("loose substring match ...
case-insensitive").  Pandas `str.contains` actually treats the pattern
as a regular expression, so the program agrees with this function
exactly when the pattern is free of regex metacharacters. -/
def strContainsLiteralCI (hay pat : String) : Bool :=
  (List.range (hay.toList.length + 1)).any
    (fun i => ciPrefix pat.toList (hay.toList.drop i))

/-- One window of `re.search` for a pattern made of literal characters
and `.` wildcards: `.` matches any character except a newline (DOTALL
is off), literal characters match case-insensitively. -/
def dotMatchAt : List Char → List Char → Bool
  | [], _ => true
  | _ :: _, [] => false
  | p :: ps, h :: hs =>
    (if p = '.' then h != '\n' else ciEq p h) && dotMatchAt ps hs

/-- `re.search` with `re.IGNORECASE` for a pattern made of literal
characters and `.` wildcards: does some window of the haystack match? -/
def dotSearch (hay pat : String) : Bool :=
  (List.range (hay.toList.length + 1)).any
    (fun i => dotMatchAt pat.toList (hay.toList.drop i))

/-- Pattern compilation as pandas
`str.contains(pat, case=False, na=False)` performs it through
`re.compile`: an invalid pattern raises `re.error` before any row is
examined, a valid one yields a total per-cell test.  The embedding
interprets the fragment of patterns built from literal characters and
`.` wildcards itself (`dotSearch` is Python's behaviour there); the
behaviour on every other pattern — a valid complex regex, or an invalid
one that raises — is not re-implemented but taken from the `eng`
parameter, which stands for Python's `re` engine. -/
def matchPattern (eng : String → Except String (String → Bool))
    (pat : String) : Except String (String → Bool) :=
  if tokenIsDotPattern pat then .ok (fun hay => dotSearch hay pat)
  else eng pat

/-- The embedding of `_match_fp_row(df, name)` (lines 107-112): `None`
for an empty table or one without a `Player` column; otherwise compile
the first token of `name` as a case-insensitive pattern and return the
first row whose player cell it matches.  The `Except` errors are the
`IndexError` raised by `name.split()[0]` on a token-free name and the
`re.error` an invalid pattern raises in the engine — neither is caught
anywhere in `get_proj_week`. -/
def match_fp_row (eng : String → Except String (String → Bool))
    (df : FPTable) (name : String) : Except String (Option FPRow) :=
  if df.rows.isEmpty || !df.hasPlayerCol then .ok Option.none
  else
    match firstToken name with
    | Option.none => .error "IndexError"
    | some first =>
      match matchPattern eng first with
      | .error e => .error e
      | .ok test => .ok (df.rows.find? (fun r => test r.player))

/-- The ESPN branch of `get_proj_week` (lines 121-130): the week's
`"projected"` stat if present and truthy, else `projected_points` if
present and truthy, else nothing.  The branch sits in a `try`/`except`
that swallows every exception, so it is total. -/
def espn_value (week : Nat) (player : ProjPlayer) : Option ℚ :=
  let fromStats : Option ℚ :=
    match player.stats with
    | Option.none => Option.none
    | some m =>
      match m.lookup week with
      | Option.none => Option.none
      | some Option.none => Option.none
      | some (some v) => if v = 0 then Option.none else some v
  match fromStats with
  | some v => some v
  | Option.none =>
    match player.projected_points with
    | some v => if v = 0 then Option.none else some v
    | Option.none => Option.none

/-- The FantasyPros branch of `get_proj_week` (lines 135-143): position
key, table lookup (`fp_weekly.get(key, empty)` is the total function
`fpw`), row match, `safe_proj` of the `FPTS` cell; `0.0` when the
position is unknown or no row matches. -/
def fp_value (eng : String → Except String (String → Bool))
    (fpw : String → FPTable) (player : ProjPlayer) : Except String ℚ :=
  match pos_key player with
  | Option.none => .ok 0
  | some key =>
    match match_fp_row eng (fpw key) player.name with
    | .error e => .error e
    | .ok Option.none => .ok 0
    | .ok (some row) => .ok (safe_proj row.fpts)

/-- The embedding of `get_proj_week(player, week)` (lines 115-143) with
the globals made explicit: the sidebar mode, the scraped weekly tables
and the resolved week number.  The result is `Except` because the
FantasyPros branch can raise (see `match_fp_row`). -/
def get_proj_week (mode : Mode) (eng : String → Except String (String → Bool))
    (fpw : String → FPTable) (week : Nat)
    (player : ProjPlayer) : Except String ℚ :=
  match mode with
  | .espnOnly => .ok ((espn_value week player).getD 0)
  | .fpFallback =>
    match espn_value week player with
    | some v => .ok v
    | Option.none => fp_value eng fpw player
  | .fpOnly => fp_value eng fpw player

/-- The embedding of `trade_summary_verdict` (lines 278-289): the
rest-of-season gain is the max of the ESPN and FantasyPros gains, the
score is `weekly/5 + ros/50`, and the label is chosen by fixed
thresholds. -/
def trade_summary_verdict (team_gain_wk team_gain_rosE team_gain_rosF : ℚ) :
    String × ℚ :=
  let ros_gain := max team_gain_rosE team_gain_rosF
  let score := team_gain_wk / 5 + ros_gain / 50
  if score ≥ 1 then ("🟢 Strong Accept", score)
  else if score ≥ 1 / 2 then ("🟡 Lean Accept", score)
  else if score > -3 / 10 then ("⚪ Neutral / Even", score)
  else if score > -4 / 5 then ("🟠 Lean Decline", score)
  else ("🔴 Strong Decline", score)

/-- Descending sortedness by projection: each player is projected at
least as high as every later one. -/
def SortedDesc (proj : Player → ℚ) (l : List Player) : Prop :=
  l.Pairwise (fun a b => proj b ≤ proj a)

/-- A five-player roster mirroring the worked example of the spec:
two QBs, two RBs, one WR. -/
def wRoster : List Player :=
  [⟨0, "A", "QB"⟩, ⟨1, "B", "QB"⟩, ⟨2, "C", "RB"⟩, ⟨3, "D", "RB"⟩, ⟨4, "E", "WR"⟩]

/-- Projections for `wRoster`, keyed by `pid`. -/
def wProj : Player → ℚ :=
  fun p => ([20, 15, 18, 10, 22] : List ℚ).getD p.pid 0

/-- The slot requirement map of the spec's worked example. -/
def wSlots : List (String × Nat) := [("QB", 1), ("RB", 1), ("WR", 1), ("FLEX", 1)]

/-- A player whose `position` attribute is the literal string `"FLEX"`:
such a player is bucketed straight into `groups["FLEX"]` by the loop of
lines 183-186, because `"FLEX"` is a key of the `groups` dict. -/
def flexTagged : Player := ⟨0, "X", "FLEX"⟩

/-- A player with a position outside every group key. -/
def coachPlayer : Player := ⟨5, "Z", "COACH"⟩

/-- An ordinary RB used to exercise the FLEX slot. -/
def rbPlayer : Player := ⟨6, "R", "RB"⟩

/-- A WR listed before an RB in the roster, with equal projections:
exercises the tie order of the FLEX bucket. -/
def wrE : Player := ⟨0, "E", "WR"⟩

/-- The RB listed after `wrE`. -/
def rbD : Player := ⟨1, "D", "RB"⟩

/-- The constant projection giving `wrE` and `rbD` a tie. -/
def tieProj : Player → ℚ := fun _ => 10

/-- A resolver player whose ESPN data is present but unusable: the
current week's projected stat is `0` and `projected_points` is absent. -/
def jsPlayer : ProjPlayer := ⟨"John Smith", "QB", some [(3, some 0)], Option.none⟩

/-- The matching FantasyPros row for `jsPlayer`, with `FPTS` the scraped
string `"12.3"`. -/
def jsRow : FPRow := ⟨"John Smith", PyVal.str "12.3"⟩

/-- A scraped QB table: an earlier non-matching row, then `jsRow`. -/
def wTableQB : FPTable := ⟨true, [⟨"Jane Doe", PyVal.str "5.0"⟩, jsRow]⟩

/-- The weekly-tables map: `wTableQB` under `"qb"`, empty elsewhere. -/
def wfpw : String → FPTable :=
  fun k => if k = "qb" then wTableQB else ⟨true, []⟩

/-- A resolver player whose name has no whitespace tokens. -/
def emptyNamePlayer : ProjPlayer := ⟨"", "QB", Option.none, Option.none⟩

/-- A resolver player with a normal name and no ESPN data. -/
def okNamePlayer : ProjPlayer := ⟨"John Smith", "QB", Option.none, Option.none⟩

/-- A projection function differing from `wProj` outside `wRoster` but
agreeing on it. -/
def wProj2 : Player → ℚ :=
  fun p => if p.pid < 5 then wProj p else 99

/-- A regex-engine value used only to close concrete statements: it
rejects every pattern it is asked to compile.  No concrete statement
below consults it — their patterns lie in the dot-fragment that
`matchPattern` interprets itself, or the failure occurs before any
pattern is compiled. -/
def rejectEngine : String → Except String (String → Bool) :=
  fun _ => Except.error "re.error"

/-- A resolver player with a dotted first-name token, as many NFL names
have, and unusable ESPN data. -/
def ajPlayer : ProjPlayer := ⟨"A.J. Brown", "WR", some [(3, some 0)], Option.none⟩

/-- A scraped WR table: an earlier row whose player cell the regex
`A.J.` matches (inside `Ramjet`) without containing it literally, then
the row for `ajPlayer`. -/
def ajTable : FPTable :=
  ⟨true, [⟨"Ramjet Smith", PyVal.str "5"⟩, ⟨"A.J. Brown", PyVal.str "12"⟩]⟩

/-- The weekly-tables map for the regex counterexample. -/
def ajfpw : String → FPTable :=
  fun k => if k = "wr" then ajTable else ⟨true, []⟩

/-! ## Properties of the stable descending sort -/

theorem mem_insertDesc (proj : Player → ℚ) (x : Player) (l : List Player) (p : Player) :
    p ∈ insertDesc proj x l ↔ p = x ∨ p ∈ l := by
  induction l with
  | nil => simp [insertDesc]
  | cons y ys ih =>
    by_cases h : proj x < proj y
    · simp only [insertDesc, if_pos h, List.mem_cons, ih]
      tauto
    · simp [insertDesc, if_neg h]

theorem mem_sortDesc (proj : Player → ℚ) (l : List Player) (p : Player) :
    p ∈ sortDesc proj l ↔ p ∈ l := by
  induction l with
  | nil => simp [sortDesc]
  | cons x xs ih => simp [sortDesc, mem_insertDesc, ih]

theorem sortedDesc_insertDesc (proj : Player → ℚ) (x : Player) (l : List Player)
    (h : SortedDesc proj l) : SortedDesc proj (insertDesc proj x l) := by
  induction l with
  | nil => simp [insertDesc, SortedDesc]
  | cons y ys ih =>
    rcases List.pairwise_cons.mp h with ⟨hy, hys⟩
    by_cases hlt : proj x < proj y
    · simp only [insertDesc, if_pos hlt, SortedDesc, List.pairwise_cons]
      refine ⟨?_, ih hys⟩
      intro z hz
      rcases (mem_insertDesc proj x ys z).mp hz with rfl | hz
      · exact le_of_lt hlt
      · exact hy z hz
    · simp only [insertDesc, if_neg hlt, SortedDesc, List.pairwise_cons]
      refine ⟨?_, hy, hys⟩
      intro z hz
      rcases List.mem_cons.mp hz with rfl | hz
      · exact le_of_not_lt hlt
      · exact le_trans (hy z hz) (le_of_not_lt hlt)

theorem sortedDesc_sortDesc (proj : Player → ℚ) (l : List Player) :
    SortedDesc proj (sortDesc proj l) := by
  induction l with
  | nil => simp [sortDesc, SortedDesc]
  | cons x xs ih => exact sortedDesc_insertDesc proj x _ ih

theorem filter_insertDesc_eq (proj : Player → ℚ) (x : Player) (l : List Player)
    (q : ℚ) (h : proj x = q) :
    (insertDesc proj x l).filter (fun p => decide (proj p = q)) =
      x :: l.filter (fun p => decide (proj p = q)) := by
  induction l with
  | nil => simp [insertDesc, h]
  | cons y ys ih =>
    by_cases hlt : proj x < proj y
    · have hy : ¬ proj y = q := by
        intro hq
        rw [h, hq] at hlt
        exact lt_irrefl q hlt
      rw [insertDesc, if_pos hlt]
      simp [List.filter_cons, hy, ih]
    · rw [insertDesc, if_neg hlt]
      simp [List.filter_cons, h]

theorem filter_insertDesc_ne (proj : Player → ℚ) (x : Player) (l : List Player)
    (q : ℚ) (h : proj x ≠ q) :
    (insertDesc proj x l).filter (fun p => decide (proj p = q)) =
      l.filter (fun p => decide (proj p = q)) := by
  induction l with
  | nil => simp [insertDesc, h]
  | cons y ys ih =>
    by_cases hlt : proj x < proj y
    · simp [insertDesc, if_pos hlt, List.filter_cons, ih]
    · simp [insertDesc, if_neg hlt, List.filter_cons, h]

theorem filter_sortDesc (proj : Player → ℚ) (l : List Player) (q : ℚ) :
    (sortDesc proj l).filter (fun p => decide (proj p = q)) =
      l.filter (fun p => decide (proj p = q)) := by
  induction l with
  | nil => simp [sortDesc]
  | cons x xs ih =>
    by_cases h : proj x = q
    · rw [sortDesc, filter_insertDesc_eq proj x _ q h, ih,
        List.filter_cons_of_pos (by simpa using h)]
    · rw [sortDesc, filter_insertDesc_ne proj x _ q h, ih,
        List.filter_cons_of_neg (by simpa using h)]

theorem insertDesc_congr (proj₁ proj₂ : Player → ℚ) (x : Player) (l : List Player)
    (hx : proj₁ x = proj₂ x) (hl : ∀ y ∈ l, proj₁ y = proj₂ y) :
    insertDesc proj₁ x l = insertDesc proj₂ x l := by
  induction l with
  | nil => simp [insertDesc]
  | cons y ys ih =>
    have hy := hl y (List.mem_cons_self y ys)
    have ih' := ih (fun z hz => hl z (List.mem_cons_of_mem y hz))
    simp only [insertDesc, hx, hy, ih']

theorem sortDesc_congr (proj₁ proj₂ : Player → ℚ) (l : List Player)
    (hl : ∀ y ∈ l, proj₁ y = proj₂ y) :
    sortDesc proj₁ l = sortDesc proj₂ l := by
  induction l with
  | nil => rfl
  | cons x xs ih =>
    have ih' := ih (fun z hz => hl z (List.mem_cons_of_mem x hz))
    rw [sortDesc, sortDesc, ih',
      insertDesc_congr proj₁ proj₂ x _ (hl x (List.mem_cons_self x xs))]
    intro y hy
    exact hl y (List.mem_cons_of_mem x ((mem_sortDesc proj₂ xs y).mp hy))

/-! ## Properties of the greedy fill -/

theorem fillSlot_snd (used : List Player) (c : Nat) (b : List Player) :
    (fillSlot used c b).2 = (fillSlot used c b).1.reverse ++ used := by
  induction b generalizing used c with
  | nil => cases c <;> simp [fillSlot]
  | cons x xs ih =>
    cases c with
    | zero => simp [fillSlot]
    | succ c =>
      by_cases hx : x ∈ used
      · rw [fillSlot, if_pos hx]
        exact ih used (c + 1)
      · rw [fillSlot, if_neg hx]
        simp only [List.reverse_cons, List.append_assoc, List.cons_append,
          List.nil_append]
        exact ih (x :: used) c

theorem fillSlot_picked_subset (used : List Player) (c : Nat) (b : List Player) :
    ∀ p ∈ (fillSlot used c b).1, p ∈ b := by
  induction b generalizing used c with
  | nil => cases c <;> simp [fillSlot]
  | cons x xs ih =>
    cases c with
    | zero => simp [fillSlot]
    | succ c =>
      by_cases hx : x ∈ used
      · rw [fillSlot, if_pos hx]
        intro p hp
        exact List.mem_cons_of_mem x (ih used (c + 1) p hp)
      · rw [fillSlot, if_neg hx]
        intro p hp
        rcases List.mem_cons.mp hp with rfl | hp
        · exact List.mem_cons_self p xs
        · exact List.mem_cons_of_mem x (ih (x :: used) c p hp)

theorem fillSlot_picked_not_used (used : List Player) (c : Nat) (b : List Player) :
    ∀ p ∈ (fillSlot used c b).1, p ∉ used := by
  induction b generalizing used c with
  | nil => cases c <;> simp [fillSlot]
  | cons x xs ih =>
    cases c with
    | zero => simp [fillSlot]
    | succ c =>
      by_cases hx : x ∈ used
      · rw [fillSlot, if_pos hx]
        exact ih used (c + 1)
      · rw [fillSlot, if_neg hx]
        intro p hp
        rcases List.mem_cons.mp hp with rfl | hp
        · exact hx
        · have := ih (x :: used) c p hp
          intro hu
          exact this (List.mem_cons_of_mem x hu)

theorem fillSlot_picked_nodup (used : List Player) (c : Nat) (b : List Player) :
    (fillSlot used c b).1.Nodup := by
  induction b generalizing used c with
  | nil => cases c <;> simp [fillSlot]
  | cons x xs ih =>
    cases c with
    | zero => simp [fillSlot]
    | succ c =>
      by_cases hx : x ∈ used
      · rw [fillSlot, if_pos hx]
        exact ih used (c + 1)
      · rw [fillSlot, if_neg hx]
        refine List.nodup_cons.mpr ⟨?_, ih (x :: used) c⟩
        intro hmem
        exact fillSlot_picked_not_used (x :: used) c xs x hmem
          (List.mem_cons_self x used)

theorem fillSlot_length (used : List Player) (c : Nat) (b : List Player) :
    (fillSlot used c b).1.length ≤ c := by
  induction b generalizing used c with
  | nil => cases c <;> simp [fillSlot]
  | cons x xs ih =>
    cases c with
    | zero => simp [fillSlot]
    | succ c =>
      by_cases hx : x ∈ used
      · rw [fillSlot, if_pos hx]
        exact ih used (c + 1)
      · rw [fillSlot, if_neg hx]
        simpa using Nat.succ_le_succ (ih (x :: used) c)

theorem fillAll_entry_subset (g : String → List Player) (used : List Player)
    (slots : List (String × Nat)) :
    ∀ e ∈ (fillAll g used slots).1, ∀ p ∈ e.2, p ∈ g e.1 := by
  induction slots generalizing used with
  | nil => simp [fillAll]
  | cons sc rest ih =>
    obtain ⟨s, c⟩ := sc
    rw [fillAll]
    intro e he
    rcases List.mem_cons.mp he with rfl | he
    · exact fun p hp => fillSlot_picked_subset used c (g s) p hp
    · exact ih _ e he

theorem fillAll_snd (g : String → List Player) (used : List Player)
    (slots : List (String × Nat)) :
    (fillAll g used slots).2 =
      (((fillAll g used slots).1.map Prod.snd).flatten).reverse ++ used := by
  induction slots generalizing used with
  | nil => simp [fillAll]
  | cons sc rest ih =>
    obtain ⟨s, c⟩ := sc
    rw [fillAll]
    simp only [List.map_cons, List.flatten_cons, List.reverse_append,
      List.append_assoc]
    rw [ih ((fillSlot used c (g s)).2), fillSlot_snd used c (g s)]

theorem fillAll_flatten_nodup (g : String → List Player) (used : List Player)
    (slots : List (String × Nat)) :
    (((fillAll g used slots).1.map Prod.snd).flatten).Nodup ∧
      ∀ p ∈ ((fillAll g used slots).1.map Prod.snd).flatten, p ∉ used := by
  induction slots generalizing used with
  | nil => simp [fillAll]
  | cons sc rest ih =>
    obtain ⟨s, c⟩ := sc
    rw [fillAll]
    simp only [List.map_cons, List.flatten_cons, List.nodup_append,
      List.mem_append]
    obtain ⟨ihN, ihU⟩ := ih ((fillSlot used c (g s)).2)
    have hUsedEq := fillSlot_snd used c (g s)
    constructor
    · refine ⟨fillSlot_picked_nodup used c (g s), ihN, ?_⟩
      intro p hp hq
      have := ihU p hq
      rw [hUsedEq] at this
      exact this (List.mem_append.mpr (Or.inl (List.mem_reverse.mpr hp)))
    · rintro p (hp | hp)
      · exact fillSlot_picked_not_used used c (g s) p hp
      · have := ihU p hp
        rw [hUsedEq] at this
        intro hu
        exact this (List.mem_append.mpr (Or.inr hu))

theorem fillAll_counts (g : String → List Player) (used : List Player)
    (slots : List (String × Nat)) :
    List.Forall₂ (fun (sc : String × Nat) (sl : String × List Player) =>
      sl.1 = sc.1 ∧ sl.2.length ≤ sc.2) slots (fillAll g used slots).1 := by
  induction slots generalizing used with
  | nil => simp [fillAll]
  | cons sc rest ih =>
    obtain ⟨s, c⟩ := sc
    rw [fillAll]
    exact List.Forall₂.cons ⟨rfl, fillSlot_length used c (g s)⟩ (ih _)

/-! ## Properties of the buckets -/

theorem mem_posBucket (roster : List Player) (pos : String) (p : Player) :
    p ∈ posBucket roster pos ↔ p ∈ roster ∧ p.position = pos := by
  simp [posBucket]

theorem mem_flexBucket (roster : List Player) (p : Player) :
    p ∈ flexBucket roster ↔
      p ∈ roster ∧ p.position ∈ (["FLEX", "RB", "WR", "TE"] : List String) := by
  simp only [flexBucket, List.mem_append, mem_posBucket, List.mem_cons,
    List.mem_singleton, List.not_mem_nil]
  constructor
  · rintro (((⟨h, hp⟩ | ⟨h, hp⟩) | ⟨h, hp⟩) | ⟨h, hp⟩) <;> exact ⟨h, by simp [hp]⟩
  · rintro ⟨h, hp | hp | hp | hp | hp⟩
    · exact Or.inl (Or.inl (Or.inl ⟨h, hp⟩))
    · exact Or.inl (Or.inl (Or.inr ⟨h, hp⟩))
    · exact Or.inl (Or.inr ⟨h, hp⟩)
    · exact Or.inr ⟨h, hp⟩
    · cases hp

theorem mem_groups_mem_roster (proj : Player → ℚ) (roster : List Player)
    (s : String) (p : Player) (h : p ∈ groups proj roster s) : p ∈ roster := by
  unfold groups at h
  split at h
  · exact ((mem_flexBucket roster p).mp ((mem_sortDesc proj _ p).mp h)).1
  · split at h
    · exact ((mem_posBucket roster s p).mp ((mem_sortDesc proj _ p).mp h)).1
    · cases h

theorem mem_groups_flex (proj : Player → ℚ) (roster : List Player) (p : Player)
    (h : p ∈ groups proj roster "FLEX") :
    p.position ∈ (["RB", "WR", "TE", "FLEX"] : List String) := by
  unfold groups at h
  rw [if_pos rfl] at h
  have := ((mem_flexBucket roster p).mp ((mem_sortDesc proj _ p).mp h)).2
  simp only [List.mem_cons, List.mem_singleton, List.not_mem_nil, or_false] at this ⊢
  tauto

theorem mem_groups_position (proj : Player → ℚ) (roster : List Player)
    (s : String) (p : Player) (h : p ∈ groups proj roster s) :
    (p.position = s ∧ s ∈ singleSlots) ∨ (s = "FLEX" ∧
      p.position ∈ (["RB", "WR", "TE", "FLEX"] : List String)) := by
  unfold groups at h
  split at h
  · rename_i hs
    refine Or.inr ⟨hs, ?_⟩
    have hg : p ∈ groups proj roster "FLEX" := by
      unfold groups
      rw [if_pos rfl]
      exact h
    exact mem_groups_flex proj roster p hg
  · split at h
    · rename_i hs2
      exact Or.inl
        ⟨((mem_posBucket roster s p).mp ((mem_sortDesc proj _ p).mp h)).2, hs2⟩
    · cases h

/-! ## The claims -/

theorem build_optimizer_def (proj : Player → ℚ) (roster : List Player)
    (starting_slots : List (String × Nat)) :
    build_optimizer proj roster starting_slots =
      ((fillAll (groups proj roster) [] starting_slots).1,
        roster.filter (fun p =>
          decide (p ∉ (fillAll (groups proj roster) [] starting_slots).2))) := rfl

theorem mem_fillAll_snd_iff (proj : Player → ℚ) (roster : List Player)
    (starting_slots : List (String × Nat)) (p : Player) :
    p ∈ (fillAll (groups proj roster) [] starting_slots).2 ↔
      p ∈ ((fillAll (groups proj roster) [] starting_slots).1.map Prod.snd).flatten := by
  rw [fillAll_snd]
  simp

theorem mem_flatten_mem_roster (proj : Player → ℚ) (roster : List Player)
    (starting_slots : List (String × Nat)) (p : Player)
    (hp : p ∈ ((fillAll (groups proj roster) [] starting_slots).1.map Prod.snd).flatten) :
    p ∈ roster := by
  rcases List.mem_flatten.mp hp with ⟨l, hl, hpl⟩
  rcases List.mem_map.mp hl with ⟨e, he, rfl⟩
  exact mem_groups_mem_roster proj roster e.1 p
    (fillAll_entry_subset (groups proj roster) [] starting_slots e he p hpl)

/-- C1: for every roster and slot requirement map, `build_optimizer`
partitions the roster — the concatenation of the lineup slot lists has no
duplicate, every assigned player is a roster member absent from the
bench, every roster player is assigned or benched and vice versa, and
the bench has no duplicate.  The roster is assumed duplicate-free, which
is what Python object identity gives the original. -/
theorem build_optimizer_partitions (proj : Player → ℚ) (roster : List Player)
    (starting_slots : List (String × Nat)) (hN : roster.Nodup) :
    (((build_optimizer proj roster starting_slots).1.map Prod.snd).flatten).Nodup
    ∧ (∀ p ∈ ((build_optimizer proj roster starting_slots).1.map Prod.snd).flatten,
        p ∈ roster ∧ p ∉ (build_optimizer proj roster starting_slots).2)
    ∧ (∀ p, p ∈ roster ↔
        (p ∈ ((build_optimizer proj roster starting_slots).1.map Prod.snd).flatten
          ∨ p ∈ (build_optimizer proj roster starting_slots).2))
    ∧ (build_optimizer proj roster starting_slots).2.Nodup := by
  rw [build_optimizer_def]
  simp only
  have hbench : ∀ p : Player,
      p ∈ roster.filter (fun p =>
          decide (p ∉ (fillAll (groups proj roster) [] starting_slots).2)) ↔
        p ∈ roster ∧
          ¬ p ∈ ((fillAll (groups proj roster) [] starting_slots).1.map Prod.snd).flatten := by
    intro p
    rw [List.mem_filter]
    simp [mem_fillAll_snd_iff proj roster starting_slots p]
  refine ⟨(fillAll_flatten_nodup (groups proj roster) [] starting_slots).1, ?_, ?_, ?_⟩
  · intro p hp
    refine ⟨mem_flatten_mem_roster proj roster starting_slots p hp, ?_⟩
    intro hb
    exact ((hbench p).mp hb).2 hp
  · intro p
    constructor
    · intro hr
      by_cases hflat :
          p ∈ ((fillAll (groups proj roster) [] starting_slots).1.map Prod.snd).flatten
      · exact Or.inl hflat
      · exact Or.inr ((hbench p).mpr ⟨hr, hflat⟩)
    · rintro (hflat | hb)
      · exact mem_flatten_mem_roster proj roster starting_slots p hflat
      · exact ((hbench p).mp hb).1
  · exact List.Nodup.filter _ hN

/-- Witness for C1 at the spec's five-player example roster. -/
theorem build_optimizer_partitions_witness :
    wRoster.Nodup
    ∧ ((((build_optimizer wProj wRoster wSlots).1.map Prod.snd).flatten).Nodup
      ∧ (∀ p ∈ ((build_optimizer wProj wRoster wSlots).1.map Prod.snd).flatten,
          p ∈ wRoster ∧ p ∉ (build_optimizer wProj wRoster wSlots).2)
      ∧ (∀ p, p ∈ wRoster ↔
          (p ∈ ((build_optimizer wProj wRoster wSlots).1.map Prod.snd).flatten
            ∨ p ∈ (build_optimizer wProj wRoster wSlots).2))
      ∧ (build_optimizer wProj wRoster wSlots).2.Nodup) :=
  ⟨by decide, build_optimizer_partitions wProj wRoster wSlots (by decide)⟩

/-- C2: for every roster and slot requirement map, the returned lineup
has one entry per requested slot, in order, and the number of players
assigned to a slot never exceeds the requested count (counts are `Nat`,
so non-negative by type). -/
theorem build_optimizer_slot_counts (proj : Player → ℚ) (roster : List Player)
    (starting_slots : List (String × Nat)) :
    List.Forall₂ (fun (sc : String × Nat) (sl : String × List Player) =>
        sl.1 = sc.1 ∧ sl.2.length ≤ sc.2)
      starting_slots (build_optimizer proj roster starting_slots).1 := by
  rw [build_optimizer_def]
  exact fillAll_counts (groups proj roster) [] starting_slots

/-- C7: the verdict score returned by `trade_summary_verdict` is exactly
the weekly gain over 5 plus the larger of the two rest-of-season gains
over 50, in every threshold branch — no other term, no positional
scaling. -/
theorem trade_summary_verdict_score (team_gain_wk team_gain_rosE team_gain_rosF : ℚ) :
    (trade_summary_verdict team_gain_wk team_gain_rosE team_gain_rosF).2 =
      team_gain_wk / 5 + max team_gain_rosE team_gain_rosF / 50 := by
  unfold trade_summary_verdict
  dsimp only
  split_ifs <;> rfl

/-- C8: `build_optimizer` is deterministic — two evaluations whose
weekly-projection functions agree on every roster player produce
identical lineups and benches.  In particular re-running it with
unchanged projections re-produces the same partition. -/
theorem build_optimizer_deterministic (proj₁ proj₂ : Player → ℚ)
    (roster : List Player) (starting_slots : List (String × Nat))
    (h : ∀ p ∈ roster, proj₁ p = proj₂ p) :
    build_optimizer proj₁ roster starting_slots =
      build_optimizer proj₂ roster starting_slots := by
  have hg : groups proj₁ roster = groups proj₂ roster := by
    funext s
    unfold groups
    by_cases hs : s = "FLEX"
    · rw [if_pos hs, if_pos hs]
      exact sortDesc_congr proj₁ proj₂ _
        (fun y hy => h y ((mem_flexBucket roster y).mp hy).1)
    · rw [if_neg hs, if_neg hs]
      by_cases hs2 : s ∈ singleSlots
      · rw [if_pos hs2, if_pos hs2]
        exact sortDesc_congr proj₁ proj₂ _
          (fun y hy => h y ((mem_posBucket roster s y).mp hy).1)
      · rw [if_neg hs2, if_neg hs2]
  unfold build_optimizer
  rw [hg]

/-- Witness for C8: two syntactically different projection functions
that agree on the example roster give the same result. -/
theorem build_optimizer_deterministic_witness :
    (∀ p ∈ wRoster, wProj p = wProj2 p)
    ∧ build_optimizer wProj wRoster wSlots = build_optimizer wProj2 wRoster wSlots :=
  ⟨by decide, build_optimizer_deterministic wProj wProj2 wRoster wSlots (by decide)⟩

/-- C3 counterexample: a roster player whose `position` attribute is the
literal string `"FLEX"` is bucketed into `groups["FLEX"]` by the loop of
lines 183-186 and assigned to the FLEX slot, although its position is
not RB, WR or TE.  This falsifies the claim as stated, which quantifies
over every roster. -/
theorem flex_slot_positions_cex :
    (build_optimizer (fun _ => 0) [flexTagged] [("FLEX", 1)]).1 =
      [("FLEX", [flexTagged])]
    ∧ flexTagged.position ∉ (["RB", "WR", "TE"] : List String) := by
  constructor
  · rfl
  · decide

/-- C3 (amended): every player assigned to a FLEX slot has position RB,
WR, TE, or the literal position string `"FLEX"`. -/
theorem flex_slot_positions (proj : Player → ℚ) (roster : List Player)
    (starting_slots : List (String × Nat)) :
    ∀ e ∈ (build_optimizer proj roster starting_slots).1, e.1 = "FLEX" →
      ∀ p ∈ e.2, p.position ∈ (["RB", "WR", "TE", "FLEX"] : List String) := by
  rw [build_optimizer_def]
  intro e he hflex p hp
  have hmem := fillAll_entry_subset (groups proj roster) [] starting_slots e he p hp
  rw [hflex] at hmem
  exact mem_groups_flex proj roster p hmem

/-- Witness for C3 (amended): an RB filling the FLEX slot. -/
theorem flex_slot_positions_witness :
    ("FLEX", [rbPlayer]) ∈ (build_optimizer (fun _ => 0) [rbPlayer] [("FLEX", 1)]).1
    ∧ rbPlayer.position ∈ (["RB", "WR", "TE", "FLEX"] : List String) :=
  ⟨by decide, flex_slot_positions (fun _ => 0) [rbPlayer] [("FLEX", 1)]
    ("FLEX", [rbPlayer]) (by decide) rfl rbPlayer (by decide)⟩

/-- C10 counterexample: the same `"FLEX"`-tagged player has a position
outside QB, RB, WR, TE, D/ST, K, yet it is assigned to the FLEX lineup
slot and the bench comes back empty — refuting the claim that such a
player is never assigned and always benched. -/
theorem unknown_position_benched_cex :
    flexTagged.position ∉ (["QB", "RB", "WR", "TE", "D/ST", "K"] : List String)
    ∧ (build_optimizer (fun _ => 0) [flexTagged] [("FLEX", 1)]).1 =
        [("FLEX", [flexTagged])]
    ∧ (build_optimizer (fun _ => 0) [flexTagged] [("FLEX", 1)]).2 = [] := by
  refine ⟨by decide, rfl, rfl⟩

/-- C10 (amended): a roster player whose position is not one of QB, RB,
WR, TE, D/ST, K, FLEX is assigned to no lineup slot and always appears
in the bench. -/
theorem unknown_position_benched (proj : Player → ℚ) (roster : List Player)
    (starting_slots : List (String × Nat)) (p : Player) (hp : p ∈ roster)
    (hpos : p.position ∉ (["QB", "RB", "WR", "TE", "D/ST", "K", "FLEX"] : List String)) :
    (∀ e ∈ (build_optimizer proj roster starting_slots).1, p ∉ e.2)
    ∧ p ∈ (build_optimizer proj roster starting_slots).2 := by
  have hng : ∀ s, p ∉ groups proj roster s := by
    intro s hmem
    rcases mem_groups_position proj roster s p hmem with ⟨hps, hss⟩ | ⟨_, hps⟩
    · apply hpos
      rw [hps]
      simp only [singleSlots, List.mem_cons, List.not_mem_nil] at hss
      simp only [List.mem_cons, List.not_mem_nil]
      tauto
    · simp only [List.mem_cons, List.not_mem_nil] at hps
      apply hpos
      simp only [List.mem_cons, List.not_mem_nil]
      tauto
  have hne : ∀ e ∈ (fillAll (groups proj roster) [] starting_slots).1, p ∉ e.2 := by
    intro e he hp2
    exact hng e.1 (fillAll_entry_subset (groups proj roster) [] starting_slots e he p hp2)
  have hnotflat :
      p ∉ ((fillAll (groups proj roster) [] starting_slots).1.map Prod.snd).flatten := by
    intro hp2
    rcases List.mem_flatten.mp hp2 with ⟨l, hl, hpl⟩
    rcases List.mem_map.mp hl with ⟨e, he, rfl⟩
    exact hne e he hpl
  rw [build_optimizer_def]
  refine ⟨hne, ?_⟩
  rw [List.mem_filter]
  refine ⟨hp, ?_⟩
  simp only [decide_eq_true_eq]
  rw [mem_fillAll_snd_iff proj roster starting_slots p]
  exact hnotflat

/-- Witness for C10 (amended): a `"COACH"`-positioned player stays on
the bench. -/
theorem unknown_position_benched_witness :
    coachPlayer ∈ [coachPlayer]
    ∧ coachPlayer.position ∉ (["QB", "RB", "WR", "TE", "D/ST", "K", "FLEX"] : List String)
    ∧ ((∀ e ∈ (build_optimizer (fun _ => 0) [coachPlayer] wSlots).1, coachPlayer ∉ e.2)
      ∧ coachPlayer ∈ (build_optimizer (fun _ => 0) [coachPlayer] wSlots).2) :=
  ⟨by decide, by decide,
    unknown_position_benched (fun _ => 0) [coachPlayer] wSlots coachPlayer
      (by decide) (by decide)⟩

/-- C4 counterexample: a WR listed before an RB in the roster, with
equal projections.  Both land in the FLEX bucket, but the sorted FLEX
bucket lists the RB first (the bucket is built as RBs, then WRs, then
TEs before the stable sort), so the tied pair does not keep its roster
relative order. -/
theorem buckets_sorted_stable_cex :
    groups tieProj [wrE, rbD] "FLEX" ≠ [wrE, rbD]
    ∧ groups tieProj [wrE, rbD] "FLEX" = [rbD, wrE]
    ∧ [wrE, rbD].filter (fun p =>
        (["RB", "WR", "TE"] : List String).contains p.position) = [wrE, rbD]
    ∧ tieProj wrE = tieProj rbD
    ∧ wrE ≠ rbD := by
  refine ⟨by decide, by decide, by decide, rfl, by decide⟩

/-- C4 (amended): after the bucketing and sorting phase, every single
position bucket is in non-increasing projection order with ties keeping
roster relative order, and the FLEX bucket is in non-increasing
projection order with ties keeping the order of the bucket's
construction (position-`"FLEX"` players, then RBs, then WRs, then TEs,
each sub-list in roster order) — not global roster order. -/
theorem buckets_sorted_stable (proj : Player → ℚ) (roster : List Player) :
    (∀ pos ∈ singleSlots,
      SortedDesc proj (groups proj roster pos)
      ∧ ∀ q : ℚ, (groups proj roster pos).filter (fun p => decide (proj p = q)) =
          roster.filter (fun p => decide (proj p = q) && (p.position == pos)))
    ∧ SortedDesc proj (groups proj roster "FLEX")
    ∧ ∀ q : ℚ, (groups proj roster "FLEX").filter (fun p => decide (proj p = q)) =
        (flexBucket roster).filter (fun p => decide (proj p = q)) := by
  have hflexg : groups proj roster "FLEX" = sortDesc proj (flexBucket roster) := by
    unfold groups
    rw [if_pos rfl]
  refine ⟨?_, ?_, ?_⟩
  · intro pos hpos
    have hne : pos ≠ "FLEX" := by
      intro h
      rw [h] at hpos
      simp [singleSlots] at hpos
    have hg : groups proj roster pos = sortDesc proj (posBucket roster pos) := by
      unfold groups
      rw [if_neg hne, if_pos hpos]
    constructor
    · rw [hg]
      exact sortedDesc_sortDesc proj _
    · intro q
      rw [hg, filter_sortDesc, posBucket, List.filter_filter]
  · rw [hflexg]
    exact sortedDesc_sortDesc proj _
  · intro q
    rw [hflexg, filter_sortDesc]

/-- Witness for C4 (amended) at the example roster's QB bucket. -/
theorem buckets_sorted_stable_witness :
    "QB" ∈ singleSlots
    ∧ SortedDesc wProj (groups wProj wRoster "QB") :=
  ⟨by decide, ((buckets_sorted_stable wProj wRoster).1 "QB" (by decide)).1⟩

/-- C9: `safe_proj` is total (it is a Lean function into `ℚ`) and
returns the float conversion of its argument when the argument is truthy
and convertible, and `0.0` when the argument is `None`, falsy, or not
convertible to a float. -/
theorem safe_proj_spec (v : PyVal) :
    (pyTruthy v = true → ∀ q : ℚ, pyFloat v = some q → safe_proj v = q)
    ∧ ((pyTruthy v = false ∨ pyFloat v = Option.none) → safe_proj v = 0) := by
  constructor
  · intro ht q hq
    simp [safe_proj, ht, hq]
  · rintro (ht | hf)
    · simp [safe_proj, ht, pyFloat]
    · by_cases ht : pyTruthy v
      · simp [safe_proj, ht, hf]
      · simp only [Bool.not_eq_true] at ht
        simp [safe_proj, ht, pyFloat]


/-- Witness for C9: the scraped string `"12.3"` is truthy and converts
to `123/10`. -/
theorem safe_proj_spec_witness :
    pyTruthy (PyVal.str "12.3") = true
    ∧ safe_proj (PyVal.str "12.3") = 123 / 10 := by
  refine ⟨by decide, ?_⟩
  have h := (safe_proj_spec (PyVal.str "12.3")).1 (by decide)
    (((12 : ℕ) : ℚ) + ((3 : ℕ) : ℚ) / 10 ^ 1) rfl
  rw [h]
  push_cast
  norm_num


/-- A token of regex-literal characters is in particular a dot-fragment
pattern. -/
theorem tokenIsDotPattern_of_literal (t : String)
    (h : tokenIsRegexLiteral t = true) : tokenIsDotPattern t = true := by
  unfold tokenIsRegexLiteral at h
  unfold tokenIsDotPattern
  rw [List.all_eq_true] at h ⊢
  intro c hc
  rw [h c hc]
  rfl

/-- On a pattern free of `.` wildcards the dot-fragment window match is
the case-insensitive literal prefix test. -/
theorem dotMatchAt_eq_ciPrefix (p : List Char)
    (h : ∀ c ∈ p, regexLiteralChar c = true) :
    ∀ l : List Char, dotMatchAt p l = ciPrefix p l := by
  induction p with
  | nil => intro l; cases l <;> rfl
  | cons c cs ih =>
    intro l
    cases l with
    | nil => rfl
    | cons x xs =>
      have hc : c ≠ '.' := by
        intro hdot
        have hlit := h c (List.mem_cons_self c cs)
        rw [hdot] at hlit
        exact absurd hlit (by decide)
      simp only [dotMatchAt, ciPrefix, if_neg hc]
      rw [ih (fun d hd => h d (List.mem_cons_of_mem _ hd)) xs]

/-- On a metacharacter-free pattern the dot-fragment `re.search` is
exactly case-insensitive literal substring containment. -/
theorem dotSearch_eq_literal (hay pat : String)
    (h : tokenIsRegexLiteral pat = true) :
    dotSearch hay pat = strContainsLiteralCI hay pat := by
  unfold dotSearch strContainsLiteralCI
  have hall : ∀ c ∈ pat.toList, regexLiteralChar c = true := by
    rw [tokenIsRegexLiteral, List.all_eq_true] at h
    exact h
  congr 1
  funext i
  exact dotMatchAt_eq_ciPrefix pat.toList hall _

/-- Compiling a metacharacter-free token never consults the engine and
yields the literal substring test. -/
theorem matchPattern_literal (eng : String → Except String (String → Bool))
    (pat : String) (h : tokenIsRegexLiteral pat = true) :
    matchPattern eng pat = .ok (fun hay => strContainsLiteralCI hay pat) := by
  unfold matchPattern
  rw [if_pos (tokenIsDotPattern_of_literal pat h)]
  congr 1
  funext hay
  exact dotSearch_eq_literal hay pat h

/-- C5 counterexample: the claim's substring reading is false of the
program because pandas `str.contains` treats the first name token as a
regular expression.  For `A.J. Brown` the token `A.J.` regex-matches
the earlier row `Ramjet Smith` (`a.j.` matches the window `amje`
case-insensitively), which does not contain `A.J.` as a literal
substring, so the program resolves to that row's FPTS `5` instead of
the `12` of the first substring-containing row. -/
theorem get_proj_week_fallback_cex :
    firstToken ajPlayer.name = some "A.J."
    ∧ espn_value 3 ajPlayer = Option.none
    ∧ strContainsLiteralCI "Ramjet Smith" "A.J." = false
    ∧ ajTable.rows.find? (fun r => strContainsLiteralCI r.player "A.J.") =
        some ⟨"A.J. Brown", PyVal.str "12"⟩
    ∧ safe_proj (PyVal.str "12") = 12
    ∧ get_proj_week Mode.fpFallback rejectEngine ajfpw 3 ajPlayer = Except.ok 5
    ∧ (5 : ℚ) ≠ 12 := by
  refine ⟨by decide, by decide, by decide, by decide, ?_, ?_, by norm_num⟩
  · have h : safe_proj (PyVal.str "12") = ((12 : ℕ) : ℚ) := rfl
    rw [h]
    norm_num
  · have h : get_proj_week Mode.fpFallback rejectEngine ajfpw 3 ajPlayer =
        Except.ok ((5 : ℕ) : ℚ) := rfl
    have h5 : ((5 : ℕ) : ℚ) = (5 : ℚ) := by norm_num
    rw [h, h5]

/-- C5 (amended): in `"FantasyPros fallback"` mode, when the ESPN
source yields no usable value and the first token of the player's name
is free of regex metacharacters, `get_proj_week` returns the
`safe_proj` of the `FPTS` cell of the first row of the player's
per-position table whose player cell contains the token as a
case-insensitive literal substring, and `0.0` when no row matches —
in particular a player with primary value 0 and a matching row with
FPTS `12.3` resolves to `12.3`.  For tokens with metacharacters pandas
treats the token as a regular expression and the selected row can
differ (see the counterexample). -/
theorem get_proj_week_fallback (eng : String → Except String (String → Bool))
    (fpw : String → FPTable) (week : Nat)
    (player : ProjPlayer) (key first : String)
    (hE : espn_value week player = Option.none)
    (hK : pos_key player = some key)
    (hF : firstToken player.name = some first)
    (hLit : tokenIsRegexLiteral first = true)
    (hCol : (fpw key).hasPlayerCol = true) :
    (∀ row, (fpw key).rows.find? (fun r => strContainsLiteralCI r.player first) = some row →
      get_proj_week Mode.fpFallback eng fpw week player = .ok (safe_proj row.fpts))
    ∧ ((fpw key).rows.find? (fun r => strContainsLiteralCI r.player first) = Option.none →
      get_proj_week Mode.fpFallback eng fpw week player = .ok 0) := by
  have hmode : get_proj_week Mode.fpFallback eng fpw week player =
      fp_value eng fpw player := by
    simp [get_proj_week, hE]
  have hmp := matchPattern_literal eng first hLit
  constructor
  · intro row hrow
    have hne : (fpw key).rows.isEmpty = false := by
      cases hrows : (fpw key).rows with
      | nil =>
        rw [hrows] at hrow
        cases hrow
      | cons a as => simp [hrows]
    rw [hmode]
    simp [fp_value, hK, match_fp_row, hne, hCol, hF, hmp, hrow]
  · intro hnone
    rw [hmode]
    by_cases hne : (fpw key).rows.isEmpty
    · simp [fp_value, hK, match_fp_row, hne]
    · simp [fp_value, hK, match_fp_row, hne, hCol, hF, hmp, hnone]

/-- Witness for C5 (amended), realising the spec's worked example: the
ESPN value for `jsPlayer` is an unusable `0`, his token `John` is
metacharacter-free, the QB table holds a matching row with
`FPTS = "12.3"`, and the resolved weekly projection is `12.3`. -/
theorem get_proj_week_fallback_witness :
    espn_value 3 jsPlayer = Option.none
    ∧ tokenIsRegexLiteral "John" = true
    ∧ get_proj_week Mode.fpFallback rejectEngine wfpw 3 jsPlayer =
        Except.ok (123 / 10 : ℚ) := by
  refine ⟨by decide, by decide, ?_⟩
  have h := (get_proj_week_fallback rejectEngine wfpw 3 jsPlayer "qb" "John"
    (by decide) (by decide) (by decide) (by decide) (by decide)).1 jsRow (by decide)
  have h2 : safe_proj jsRow.fpts = ((12 : ℕ) : ℚ) + ((3 : ℕ) : ℚ) / 10 ^ 1 := rfl
  rw [h, h2]
  congr 1
  push_cast
  norm_num

/-- C6 counterexample: a player whose `name` has no whitespace token
makes `_match_fp_row` evaluate `name.split()[0]` on an empty list, so
an `IndexError` escapes `get_proj_week` to the caller whenever the
per-position table it consults is non-empty with a `Player` column —
here in `"FantasyPros only"` mode.  (The engine argument is never
reached: the error occurs before any pattern is compiled.) -/
theorem get_proj_week_no_exception_cex :
    get_proj_week Mode.fpOnly rejectEngine wfpw 1 emptyNamePlayer =
      Except.error "IndexError" := by
  rfl

/-- C6 (amended): for every projection-source mode, every regex engine
and every player whose name has a first whitespace-separated token that
is free of regex metacharacters, `get_proj_week` never lets an
exception escape — every lookup failure degrades to a returned value.
A token-free name raises `IndexError` (see the counterexample), and a
token that is an invalid regular expression makes `str.contains` at
line 111 raise `re.error`, which lines 135-143 do not catch either. -/
theorem get_proj_week_no_exception (mode : Mode)
    (eng : String → Except String (String → Bool)) (fpw : String → FPTable)
    (week : Nat) (player : ProjPlayer) (first : String)
    (hF : firstToken player.name = some first)
    (hLit : tokenIsRegexLiteral first = true) :
    (get_proj_week mode eng fpw week player).isOk = true := by
  have hmp := matchPattern_literal eng first hLit
  have hfp : (fp_value eng fpw player).isOk = true := by
    cases hK : pos_key player with
    | none => simp [fp_value, hK, Except.isOk, Except.toBool]
    | some key =>
      by_cases hcond : ((fpw key).rows.isEmpty || !(fpw key).hasPlayerCol) = true
      · simp [fp_value, hK, match_fp_row, hcond, Except.isOk, Except.toBool]
      · cases hfind : (fpw key).rows.find? (fun r => strContainsLiteralCI r.player first) with
        | none =>
          simp [fp_value, hK, match_fp_row, hcond, hF, hmp, hfind,
            Except.isOk, Except.toBool]
        | some row =>
          simp [fp_value, hK, match_fp_row, hcond, hF, hmp, hfind,
            Except.isOk, Except.toBool]
  cases mode with
  | espnOnly => rfl
  | fpFallback =>
    cases hE : espn_value week player with
    | none => simpa [get_proj_week, hE] using hfp
    | some v => simp [get_proj_week, hE, Except.isOk, Except.toBool]
  | fpOnly => simpa [get_proj_week] using hfp

/-- Witness for C6 (amended): a normally named player resolves without
an exception in `"FantasyPros only"` mode. -/
theorem get_proj_week_no_exception_witness :
    firstToken okNamePlayer.name = some "John"
    ∧ tokenIsRegexLiteral "John" = true
    ∧ (get_proj_week Mode.fpOnly rejectEngine wfpw 1 okNamePlayer).isOk = true :=
  ⟨by decide, by decide,
    get_proj_week_no_exception Mode.fpOnly rejectEngine wfpw 1 okNamePlayer "John"
      (by decide) (by decide)⟩
